import Mathlib

/-!
Verification of the voice-capture subsystem of the MNA AI Assistant
(`src/components/ChatInput.tsx`).

The component is embedded shallowly:

* pure utility functions (`createBlob` PCM encoding, the wake-word restart
  backoff computation, the trailing command-phrase regular expressions) become
  Lean functions;
* the controller — the React component's state (`listeningState`,
  `micPermission`, `inputValue`, `audioLevel`) together with its mutable refs
  (session promise, audio context, analyser, script processor, media stream,
  transcript, speech-recognition registration, connection timeout, animation
  frame, retry counter) — becomes a record `CState`;
* every event handler (`startListening`, `stopListening`,
  `startWakeWordListener`, `stopWakeWordListener`, the live-session
  `onopen` / `onmessage` / `onerror` / `onclose` callbacks, the connect
  timeout, the wake-word recognizer's `onresult` / `onerror` / `onend`
  callbacks, the permission-query subscription, the mic button and send
  button click handlers) becomes a function from `CState` to a `Res`: the
  final state, the list of states observable at the handler's suspension
  points (`await` boundaries — the code is single-threaded and cooperative,
  so these are the only instants at which other events can interleave), and
  the list of externally visible effects (`Output`).

Machine floats (`Float32Array` samples) are modelled exactly by rationals:
the encoder only clamps and scales, so its range behaviour is exact
arithmetic.  JavaScript `setState` updates are modelled as immediate
assignments, matching the spec's single-threaded synchronous state-machine
reading of the component.  React's render-captured closures are modelled
explicitly where they matter: `stopListening`'s 500 ms settle timer invokes
a `startWakeWordListener` whose guard reads state values captured at an
earlier render (not the live refs), so the corresponding event carries the
captured snapshot as parameters.
-/

/-! ## PCM encoding (`createBlob`, ChatInput.tsx lines 65-78) -/

/-- JavaScript clamping step of `createBlob`:
`const s = Math.max(-1, Math.min(1, data[i]))`. -/
def clip (x : ℚ) : ℚ := max (-1) (min 1 x)

/-- Truncation toward zero, as performed by the JavaScript `Int16Array`
element conversion (ToIntegerOrInfinity) on the scaled sample.  Expressed
with natural-number division on the rational's numerator and denominator so
that it evaluates by kernel reduction. -/
def jsTrunc (q : ℚ) : ℤ :=
  if 0 ≤ q.num then ((q.num.toNat / q.den : ℕ) : ℤ)
  else -(((-q.num).toNat / q.den : ℕ) : ℤ)

/-- Wrap an integer into the signed 16-bit range the way an `Int16Array`
store does (reduce mod 2^16, reinterpret as signed). -/
def toInt16 (n : ℤ) : ℤ := ((n + 32768) % 65536) - 32768

/-- One sample of `createBlob`:
`int16[i] = s < 0 ? s * 0x8000 : s * 0x7FFF` after clamping. -/
def pcm16 (x : ℚ) : ℤ :=
  toInt16 (jsTrunc (if clip x < 0 then clip x * 32768 else clip x * 32767))

/-! ## Wake-word restart backoff (`recognition.onend`, lines 419-444) -/

/-- Restart delay computed in the wake-word recognizer's `onend` handler:
`let delay = 300; if (retry > 0) delay = Math.min(500 * 2 ** retry, 30000)`. -/
def backoffDelay (retry : Nat) : Nat :=
  if retry = 0 then 300 else min (500 * 2 ^ retry) 30000

/-! ## Trailing command-phrase matching (`onmessage`, lines 308-328)

The three regular expressions
`/\b(send|done)\.?$/i`, `/\b(stop listening|stop recording)\.?$/i` and
`/\b(clear input|remove)\.?$/i` are each of the shape: a word boundary, one
of two literal alternatives (case-insensitive), an optional period, end of
input.  Such a pattern matches a string exactly when the string ends with
one of the alternatives (optionally followed by a period) and the character
immediately preceding the alternative, if any, is not a word character.
`String.prototype.replace` with such a (non-global) pattern removes the
matched characters, i.e. keeps the prefix before the alternative. -/

/-- JavaScript `\w` (ASCII mode): letters, digits, underscore. -/
def isWordChar (c : Char) : Bool := c.isAlpha || c.isDigit || c = '_'

/-- JavaScript `String.prototype.trim`: drop leading and trailing
whitespace.  Defined structurally (rather than through `String.trim`, whose
`Substring` helpers do not reduce in the kernel). -/
def jsTrim (s : String) : String :=
  ⟨((s.data.dropWhile Char.isWhitespace).reverse.dropWhile
      Char.isWhitespace).reverse⟩

/-- Case-folded character list of a string (ASCII case-insensitive match). -/
def lowerChars (s : String) : List Char := s.data.map Char.toLower

/-- Does `\bP\.?$` match `s` with alternative `p`, where `withDot` selects
whether the optional trailing period is consumed?  Holds when `s` ends with
`p` (plus a period when `withDot`), case-insensitively, preceded by a word
boundary. -/
def matchTail (p : String) (withDot : Bool) (s : String) : Bool :=
  let sc := lowerChars s
  let tgt := p.data ++ (if withDot then ['.'] else [])
  tgt.isSuffixOf sc &&
    ((sc.take (sc.length - tgt.length)).getLast?.all fun c => !isWordChar c)

/-- `regex.test(s)` for a trailing command-phrase pattern with the given
alternatives. -/
def cmdMatch (ps : List String) (s : String) : Bool :=
  ps.any fun p => matchTail p true s || matchTail p false s

/-- Number of characters consumed by the (unique) match of the pattern,
`0` when the pattern does not match.  The trailing period is consumed
greedily, as in the regular expression. -/
def matchLen (ps : List String) (s : String) : Nat :=
  match ps.find? (fun p => matchTail p true s || matchTail p false s) with
  | none => 0
  | some p => if matchTail p true s then p.length + 1 else p.length

/-- `s.replace(regex, '')` for a trailing command-phrase pattern: the prefix
of `s` before the matched characters. -/
def stripCmd (ps : List String) (s : String) : String :=
  ⟨s.data.take (s.data.length - matchLen ps s)⟩

/-- Alternatives of `sendRegex` (line 311). -/
def sendPhrases : List String := ["send", "done"]

/-- Alternatives of `stopRecordingRegex` (line 312). -/
def stopPhrases : List String := ["stop listening", "stop recording"]

/-- Alternatives of `clearInputRegex` (line 313). -/
def clearPhrases : List String := ["clear input", "remove"]

/-! ## Controller state

`CState` collects the React state hooks and mutable refs of `ChatInput`.
Boolean fields stand for "the ref currently holds a live handle".
`connectPending` records that an `ai.live.connect` call has been issued
whose `onopen` callback has not yet fired: the code never detaches those
callbacks, so they can still fire after `sessionPromiseRef` is nulled. -/

inductive LState where
  | idle | requesting_permission | initializing_audio | connecting | listening | error
deriving DecidableEq

inductive MPerm where
  | prompt | granted | denied
deriving DecidableEq

structure CState where
  listeningState : LState
  micPermission : MPerm
  inputValue : String
  audioLevel : Nat
  sessionP : Bool
  audioCtx : Bool
  analyser : Bool
  scriptProcessor : Bool
  mediaStream : Bool
  transcript : String
  wakeReg : Bool
  wakeActive : Bool
  connTimeout : Bool
  animFrame : Bool
  retryCount : Nat
  connectPending : Bool
deriving DecidableEq

/-- Environment configuration: validity of `process.env.API_KEY`
(line 220) and availability of a `SpeechRecognition` implementation
(lines 367-370). -/
structure Config where
  apiKeyOk : Bool
  speechApiOk : Bool
deriving DecidableEq

/-- Externally visible effects of a handler. -/
inductive Output where
  | errApiKey      -- onError: API key missing/invalid (line 221)
  | errTimeout     -- onError: connection timed out (line 256)
  | errConn        -- onError: live-session error (line 332)
  | errMic         -- onError: could not access microphone (line 356)
  | sent (t : String)   -- onSend(t)
  | micRequest     -- navigator.mediaDevices.getUserMedia (line 234)
  | settleDelay    -- the 300 ms wait before requesting the stream (line 230)
  | wakeAborted    -- recognition.abort() in stopWakeWordListener (line 153)
  | relTracks      -- media-stream tracks stopped (line 175)
  | relProcessor   -- script processor disconnected (line 179)
  | relAnalyser    -- analyser disconnected (line 183)
  | relCloseContext   -- audio context closed (line 189)
  | relCloseSession   -- remote session closed (line 199)
deriving DecidableEq

/-- Outcome of the `getUserMedia` request inside `startListening`:
granted, rejected with a permission error (`NotAllowedError` /
`PermissionDeniedError`), or failed for another reason. -/
inductive MicOutcome where
  | granted | deniedPerm | otherFail
deriving DecidableEq

/-- Error classes seen by the wake-word recognizer's `onerror`
(lines 398-417). -/
inductive WakeErr where
  | audioCapture | network | noSpeech | aborted | other
deriving DecidableEq

/-- Result of running one event handler: final state, the states observable
at the handler's suspension points (in order, ending with the final state),
and the emitted effects. -/
structure Res where
  final : CState
  trace : List CState
  out : List Output
deriving DecidableEq

/-- `stopWakeWordListener` (lines 144-158): null the registration first,
clear the handlers, then abort the underlying recognizer. -/
def stopWakeS (s : CState) : CState :=
  if s.wakeReg then {s with wakeReg := false, wakeActive := false} else s

/-- Effects of `stopWakeWordListener`: an abort when an instance was
registered, nothing otherwise. -/
def stopWakeOut (s : CState) : List Output :=
  if s.wakeReg then [Output.wakeAborted] else []

/-- `startWakeWordListener` (lines 363-453) as the closure created at a
render that saw `capturedLs` / `capturedMp`.  The function is memoized with
`useCallback` over `[listeningState, micPermission, stopWakeWordListener]`,
and its guard (line 364) reads those render-captured state values — not
`listeningStateRef.current` — while `speechRecognitionRef` is a mutable ref
and is read live.  A no-op unless the captured state is idle, the captured
permission is granted, no instance is currently registered and the browser
exposes a recognizer; otherwise registers and starts an instance. -/
def startWakeWordListenerAt (cfg : Config) (capturedLs : LState)
    (capturedMp : MPerm) (s : CState) : CState :=
  if capturedLs = LState.idle ∧ capturedMp = MPerm.granted ∧
      s.wakeReg = false ∧ cfg.speechApiOk then
    {s with wakeReg := true, wakeActive := true}
  else s

/-- The current-render instance of `startWakeWordListener`: its captured
values coincide with the live state.  This is the version invoked by
callers that re-render before calling it, such as the wake-word management
effect (lines 472-483). -/
def startWakeWordListener (cfg : Config) (s : CState) : CState :=
  startWakeWordListenerAt cfg s.listeningState s.micPermission s

/-- Final state of `stopListening` (lines 160-204): timers and the
animation frame cancelled, state idle, level zero, transcript cleared, and
every audio/session handle released and nulled. -/
def stopFinal (s : CState) : CState :=
  {s with connTimeout := false, animFrame := false,
          listeningState := LState.idle, audioLevel := 0, transcript := "",
          mediaStream := false, scriptProcessor := false, analyser := false,
          audioCtx := false, sessionP := false}

/-- Release effects of `stopListening`, in the order the code performs
them; each is guarded by its ref being non-null. -/
def stopOut (s : CState) : List Output :=
  (if s.mediaStream then [Output.relTracks] else []) ++
  (if s.scriptProcessor then [Output.relProcessor] else []) ++
  (if s.analyser then [Output.relAnalyser] else []) ++
  (if s.audioCtx then [Output.relCloseContext] else []) ++
  (if s.sessionP then [Output.relCloseSession] else [])

/-- `stopListening` as a handler run.  Lines 160-185 are synchronous
(timer, animation frame, state to idle, level, transcript, stream, script
processor, analyser); the first suspension is `audioContext.close()`
(line 189), the second is awaiting and closing the session promise
(lines 198-199). -/
def stopRes (s : CState) : Res :=
  let s1 : CState :=
    {s with connTimeout := false, animFrame := false,
            listeningState := LState.idle, audioLevel := 0, transcript := "",
            mediaStream := false, scriptProcessor := false, analyser := false}
  let s2 : CState := {s1 with audioCtx := false}
  { final := stopFinal s, trace := [s1, s2, stopFinal s], out := stopOut s }

/-- `startListening` (lines 217-361).  Guarded to idle/error states; a
missing or literally-"undefined" API key reports one error and moves to
the error state without touching anything else; otherwise the wake-word
listener is stopped, a 300 ms settle delay passes, the state becomes
`requesting_permission` and the microphone is requested.  On grant the
audio graph is initialized and a connect attempt with a 10 s timeout is
issued; on failure the state becomes `error` (with `micPermission` set to
denied exactly for permission errors) and `stopListening` runs. -/
def startListening (cfg : Config) (oc : MicOutcome) (s : CState) : Res :=
  if s.listeningState = LState.idle ∨ s.listeningState = LState.error then
    if cfg.apiKeyOk then
      let o1 := stopWakeOut s
      let s1 := stopWakeS s
      let s2 := {s1 with listeningState := LState.requesting_permission}
      match oc with
      | MicOutcome.granted =>
        let s3 := {s2 with mediaStream := true, micPermission := MPerm.granted}
        let s4 := {s3 with listeningState := LState.initializing_audio, audioCtx := true}
        let s5 := {s4 with transcript := "", listeningState := LState.connecting,
                           connTimeout := true, sessionP := true, connectPending := true}
        { final := s5, trace := [s1, s2, s3, s4, s5],
          out := o1 ++ [Output.settleDelay, Output.micRequest] }
      | MicOutcome.deniedPerm =>
        let s3 := {s2 with listeningState := LState.error, micPermission := MPerm.denied}
        { final := (stopRes s3).final, trace := [s1, s2, s3] ++ (stopRes s3).trace,
          out := o1 ++ [Output.settleDelay, Output.micRequest] ++ (stopRes s3).out }
      | MicOutcome.otherFail =>
        let s3 := {s2 with listeningState := LState.error}
        { final := (stopRes s3).final, trace := [s1, s2, s3] ++ (stopRes s3).trace,
          out := o1 ++ [Output.settleDelay, Output.micRequest, Output.errMic]
                 ++ (stopRes s3).out }
    else
      { final := {s with listeningState := LState.error},
        trace := [{s with listeningState := LState.error}],
        out := [Output.errApiKey] }
  else { final := s, trace := [s], out := [] }

/-- Turn-complete branch of the live session's `onmessage`
(lines 308-328): first match wins among send, stop-recording and
clear-input patterns against the trimmed accumulated transcript. -/
def turnCompleteEv (s : CState) : Res :=
  let ft := jsTrim s.transcript
  if cmdMatch sendPhrases ft then
    let taskText := jsTrim (stripCmd sendPhrases ft)
    let s1 := {s with inputValue := ""}
    { final := (stopRes s1).final, trace := (stopRes s1).trace,
      out := (if taskText = "" then [] else [Output.sent taskText]) ++ (stopRes s1).out }
  else if cmdMatch stopPhrases ft then
    let taskText := jsTrim (stripCmd stopPhrases ft)
    let s1 := {s with inputValue := taskText}
    { final := (stopRes s1).final, trace := (stopRes s1).trace, out := (stopRes s1).out }
  else if cmdMatch clearPhrases ft then
    { final := {s with inputValue := "", transcript := ""},
      trace := [{s with inputValue := "", transcript := ""}], out := [] }
  else { final := s, trace := [s], out := [] }

/-- Handler of the permission-query subscription (lines 456-469): both the
initial query and `onchange` set the permission to granted when the
external state is granted and do nothing otherwise. -/
def permChangeHandler (ext : MPerm) (s : CState) : CState :=
  if ext = MPerm.granted then {s with micPermission := MPerm.granted} else s

/-- Events of the voice controller. -/
inductive Ev where
  | micClick (oc : MicOutcome)      -- mic button click (handleMicClick)
  | autoStart (oc : MicOutcome)     -- shouldStartListening effect (lines 485-490)
  | wakeResult (matched : Bool)     -- recognizer onresult (lines 381-396)
  | wakeError (k : WakeErr)         -- recognizer onerror (lines 398-417)
  | wakeEnd                         -- recognizer onend + restart timer (419-444)
  | settleRestart (capturedLs : LState) (capturedMp : MPerm)
      -- 500 ms timer at end of stopListening (208-212); carries the
      -- render-captured state its stale closures read (see step)
  | effectSync                      -- wake-word management effect (lines 472-483)
  | sessionOpen                     -- live callbacks.onopen (lines 264-300)
  | sessionClose                    -- live callbacks.onclose (lines 337-341)
  | sessionError                    -- live callbacks.onerror (lines 330-336)
  | timeoutFire                     -- the 10 s connect timeout (lines 253-259)
  | transcriptChunk (t : String)    -- onmessage inputTranscription (302-306)
  | turnComplete                    -- onmessage turnComplete (308-328)
  | permChange (ext : MPerm)        -- permission query / onchange (456-469)
  | sendClick                       -- send button (handleSend, lines 510-518)
deriving DecidableEq

/-- One event of the controller, as a handler run. -/
def step (cfg : Config) (s : CState) : Ev → Res
  | Ev.micClick oc =>
      -- the button is disabled while permission is denied (line 603)
      if s.micPermission = MPerm.denied then { final := s, trace := [s], out := [] }
      else if s.listeningState = LState.listening ∨ s.listeningState = LState.connecting ∨
              s.listeningState = LState.initializing_audio ∨
              s.listeningState = LState.requesting_permission then
        stopRes s
      else startListening cfg oc s
  | Ev.autoStart oc => startListening cfg oc s
  | Ev.wakeResult matched =>
      if s.wakeActive then
        if matched then
          { final := {s with retryCount := 0, wakeActive := false},
            trace := [{s with retryCount := 0, wakeActive := false}],
            out := [Output.wakeAborted] }
        else
          { final := {s with retryCount := 0}, trace := [{s with retryCount := 0}], out := [] }
      else { final := s, trace := [s], out := [] }
  | Ev.wakeError k =>
      if s.wakeActive ∧ (k = WakeErr.audioCapture ∨ k = WakeErr.network) then
        { final := {s with retryCount := s.retryCount + 1},
          trace := [{s with retryCount := s.retryCount + 1}], out := [] }
      else { final := s, trace := [s], out := [] }
  | Ev.wakeEnd =>
      if s.wakeReg then
        -- still the registered instance: restart after the backoff delay
        { final := {s with wakeActive := true},
          trace := [{s with wakeActive := false}, {s with wakeActive := true}], out := [] }
      else
        { final := {s with wakeActive := false},
          trace := [{s with wakeActive := false}], out := [] }
  | Ev.settleRestart capturedLs capturedMp =>
      -- the 500 ms timer scheduled at the end of stopListening
      -- (lines 208-212).  stopListening is memoized on [micPermission]
      -- alone (line 214), so both the timer's permission test (line 209)
      -- and the startWakeWordListener it invokes are closures from an
      -- earlier render: they read the render-captured listeningState and
      -- micPermission, not listeningStateRef.current.
      if capturedMp = MPerm.granted then
        { final := startWakeWordListenerAt cfg capturedLs capturedMp s,
          trace := [startWakeWordListenerAt cfg capturedLs capturedMp s],
          out := [] }
      else { final := s, trace := [s], out := [] }
  | Ev.effectSync =>
      if s.micPermission = MPerm.granted ∧ s.listeningState = LState.idle then
        let s1 := startWakeWordListener cfg {s with retryCount := 0}
        { final := s1, trace := [s1], out := [] }
      else { final := stopWakeS s, trace := [stopWakeS s], out := stopWakeOut s }
  | Ev.sessionOpen =>
      if s.connectPending then
        let s1 := {s with connTimeout := false, listeningState := LState.listening,
                          connectPending := false}
        if s1.audioCtx ∧ s1.mediaStream then
          let s2 := {s1 with analyser := true, scriptProcessor := true, animFrame := true}
          { final := s2, trace := [s1, s2], out := [] }
        else { final := s1, trace := [s1], out := [] }
      else { final := s, trace := [s], out := [] }
  | Ev.sessionClose =>
      if s.listeningState = LState.listening ∨ s.listeningState = LState.connecting then
        stopRes s
      else { final := s, trace := [s], out := [] }
  | Ev.sessionError =>
      let r := stopRes {s with listeningState := LState.error}
      { final := r.final, trace := r.trace, out := Output.errConn :: r.out }
  | Ev.timeoutFire =>
      if s.connTimeout ∧ (s.listeningState = LState.connecting ∨
          s.listeningState = LState.initializing_audio) then
        let r := stopRes s
        { final := r.final, trace := r.trace, out := Output.errTimeout :: r.out }
      else { final := s, trace := [s], out := [] }
  | Ev.transcriptChunk t =>
      let s1 := {s with transcript := s.transcript ++ t, inputValue := s.transcript ++ t}
      { final := s1, trace := [s1], out := [] }
  | Ev.turnComplete => turnCompleteEv s
  | Ev.permChange ext =>
      { final := permChangeHandler ext s, trace := [permChangeHandler ext s], out := [] }
  | Ev.sendClick =>
      if jsTrim s.inputValue = "" then { final := s, trace := [s], out := [] }
      else
        let s1 := {s with inputValue := ""}
        if s1.listeningState = LState.idle then
          { final := s1, trace := [s1], out := [Output.sent (jsTrim s.inputValue)] }
        else
          let r := stopRes s1
          { final := r.final, trace := r.trace, out := Output.sent (jsTrim s.inputValue) :: r.out }

/-- All states reached while running an event sequence, starting state
included: for each event, the states observable at its suspension points
followed by the run of the rest from its final state. -/
def runAll (cfg : Config) (s : CState) : List Ev → List CState
  | [] => [s]
  | e :: es => s :: ((step cfg s e).trace ++ runAll cfg (step cfg s e).final es)

/-- Final state of an event sequence. -/
def runFinal (cfg : Config) (s : CState) : List Ev → CState
  | [] => s
  | e :: es => runFinal cfg (step cfg s e).final es

/-- Initial component state: idle, permission not yet queried, every ref
null. -/
def initState : CState :=
  { listeningState := LState.idle, micPermission := MPerm.prompt, inputValue := "",
    audioLevel := 0, sessionP := false, audioCtx := false, analyser := false,
    scriptProcessor := false, mediaStream := false, transcript := "",
    wakeReg := false, wakeActive := false, connTimeout := false, animFrame := false,
    retryCount := 0, connectPending := false }

/-- Default environment: valid API key, recognizer available. -/
def cfg0 : Config := { apiKeyOk := true, speechApiOk := true }

/-! ## Mutual-exclusion invariant

`CInv` is the inductive invariant of the controller: a live recognizer
engine is always the registered one, and whenever the dictation side holds
the microphone stream the wake-word side is fully released and the
controller is in one of the active capture states. -/

/-- Capture states in which the dictation side may hold the microphone. -/
def activeS (l : LState) : Bool :=
  l = LState.requesting_permission || l = LState.initializing_audio ||
  l = LState.connecting || l = LState.listening

/-- Inductive invariant: the wake-word engine is only live while
registered, and the microphone stream excludes any wake-word presence. -/
def CInv (s : CState) : Prop :=
  (s.wakeActive = true → s.wakeReg = true) ∧
  (s.mediaStream = true →
    s.wakeReg = false ∧ s.wakeActive = false ∧ activeS s.listeningState = true)

/-- Texts handed to `onSend` among a handler's effects. -/
def sentTexts (os : List Output) : List String :=
  os.filterMap fun o => match o with | Output.sent t => some t | _ => none

/-! ## Invariant preservation -/

theorem cinv_of_flags {s : CState} (h1 : s.wakeReg = false) (h2 : s.wakeActive = false)
    (h3 : s.mediaStream = true → activeS s.listeningState = true) : CInv s :=
  ⟨(fun hw => by rw [h2] at hw; cases hw), fun hm => ⟨h1, h2, h3 hm⟩⟩

theorem cinv_of_media_false {s : CState} (hm : s.mediaStream = false)
    (hw : s.wakeActive = true → s.wakeReg = true) : CInv s :=
  ⟨hw, fun hmt => absurd hmt (by rw [hm]; exact Bool.false_ne_true)⟩


theorem stopWakeS_wakeReg (s : CState) : (stopWakeS s).wakeReg = false := by
  unfold stopWakeS; split
  · rfl
  · rename_i hr; simpa using hr

theorem stopWakeS_wakeActive (s : CState) (h : CInv s) :
    (stopWakeS s).wakeActive = false := by
  unfold stopWakeS; split
  · rfl
  · rename_i hr
    cases hwa : s.wakeActive
    · rfl
    · exact absurd (h.1 hwa) (by simpa using hr)

theorem stopWakeS_mediaStream (s : CState) :
    (stopWakeS s).mediaStream = s.mediaStream := by
  unfold stopWakeS; split <;> rfl

theorem stopWakeS_listeningState (s : CState) :
    (stopWakeS s).listeningState = s.listeningState := by
  unfold stopWakeS; split <;> rfl

theorem stopRes_trace_inv (s : CState) (h1 : s.wakeActive = true → s.wakeReg = true) :
    ∀ s' ∈ (stopRes s).trace, CInv s' := by
  intro s' hs'
  simp only [stopRes, stopFinal, List.mem_cons, List.not_mem_nil, or_false] at hs'
  rcases hs' with rfl | rfl | rfl <;> exact cinv_of_media_false rfl h1

theorem stopRes_final_inv (s : CState) (h1 : s.wakeActive = true → s.wakeReg = true) :
    CInv (stopRes s).final :=
  cinv_of_media_false rfl h1

theorem startWake_inv (cfg : Config) (s : CState) (h : CInv s) :
    CInv (startWakeWordListener cfg s) := by
  unfold startWakeWordListener startWakeWordListenerAt
  split
  · rename_i hg
    refine cinv_of_media_false ?_ (fun _ => rfl)
    show s.mediaStream = false
    cases hms : s.mediaStream
    · rfl
    · have h2 := (h.2 hms).2.2
      rw [hg.1] at h2
      simp [activeS] at h2
  · exact h

theorem startListening_inv (cfg : Config) (oc : MicOutcome) (s : CState) (h : CInv s) :
    (∀ s' ∈ (startListening cfg oc s).trace, CInv s') ∧
      CInv (startListening cfg oc s).final := by
  unfold startListening
  split
  · rename_i hg
    have hm : s.mediaStream = false := by
      cases hms : s.mediaStream
      · rfl
      · have h2 := (h.2 hms).2.2
        rcases hg with hg | hg <;> rw [hg] at h2 <;> simp [activeS] at h2
    have hw1 := stopWakeS_wakeReg s
    have hw2 := stopWakeS_wakeActive s h
    have hwm : (stopWakeS s).mediaStream = false := by
      rw [stopWakeS_mediaStream]; exact hm
    have hs1 : CInv (stopWakeS s) := cinv_of_flags hw1 hw2
      (fun hmt => absurd hmt (by rw [hwm]; exact Bool.false_ne_true))
    split
    · cases oc
      case granted =>
        constructor
        · intro s' hs'
          simp only [List.mem_cons, List.not_mem_nil, or_false] at hs'
          rcases hs' with rfl | rfl | rfl | rfl | rfl
          · exact hs1
          · exact cinv_of_media_false hwm
              (fun hwa => by rw [hw2] at hwa; cases hwa)
          · exact cinv_of_flags hw1 hw2 (fun _ => by simp [activeS])
          · exact cinv_of_flags hw1 hw2 (fun _ => by simp [activeS])
          · exact cinv_of_flags hw1 hw2 (fun _ => by simp [activeS])
        · exact cinv_of_flags hw1 hw2 (fun _ => by simp [activeS])
      case deniedPerm =>
        have hs3 : CInv {({(stopWakeS s) with
            listeningState := LState.requesting_permission}) with
            listeningState := LState.error, micPermission := MPerm.denied} :=
          cinv_of_media_false hwm (fun hwa => by rw [hw2] at hwa; cases hwa)
        constructor
        · intro s' hs'
          simp only [List.cons_append, List.nil_append, List.mem_cons] at hs'
          rcases hs' with rfl | rfl | rfl | hs'
          · exact hs1
          · exact cinv_of_media_false hwm
              (fun hwa => by rw [hw2] at hwa; cases hwa)
          · exact hs3
          · exact stopRes_trace_inv _ hs3.1 _ hs'
        · exact stopRes_final_inv _ hs3.1
      case otherFail =>
        have hs3 : CInv {({(stopWakeS s) with
            listeningState := LState.requesting_permission}) with
            listeningState := LState.error} :=
          cinv_of_media_false hwm (fun hwa => by rw [hw2] at hwa; cases hwa)
        constructor
        · intro s' hs'
          simp only [List.cons_append, List.nil_append, List.mem_cons] at hs'
          rcases hs' with rfl | rfl | rfl | hs'
          · exact hs1
          · exact cinv_of_media_false hwm
              (fun hwa => by rw [hw2] at hwa; cases hwa)
          · exact hs3
          · exact stopRes_trace_inv _ hs3.1 _ hs'
        · exact stopRes_final_inv _ hs3.1
    · constructor
      · intro s' hs'
        simp only [List.mem_cons, List.not_mem_nil, or_false] at hs'
        subst hs'
        exact ⟨h.1, fun hmt => absurd hmt (by rw [hm]; exact Bool.false_ne_true)⟩
      · exact ⟨h.1, fun hmt => absurd hmt (by rw [hm]; exact Bool.false_ne_true)⟩
  · constructor
    · intro s' hs'
      simp only [List.mem_cons, List.not_mem_nil, or_false] at hs'
      subst hs'
      exact h
    · exact h

theorem res_single {t : CState} (ht : CInv t) : ∀ s' ∈ [t], CInv s' := by
  intro s' hs'
  simp only [List.mem_singleton] at hs'
  subst hs'
  exact ht

theorem turnComplete_inv (s : CState) (h : CInv s) :
    (∀ s' ∈ (turnCompleteEv s).trace, CInv s') ∧ CInv (turnCompleteEv s).final := by
  simp only [turnCompleteEv]
  split
  · exact ⟨stopRes_trace_inv {s with inputValue := ""} h.1,
      stopRes_final_inv {s with inputValue := ""} h.1⟩
  · split
    · exact ⟨stopRes_trace_inv _ h.1, stopRes_final_inv _ h.1⟩
    · split
      · have h' : CInv {s with inputValue := "", transcript := ""} := ⟨h.1, h.2⟩
        exact ⟨res_single h', h'⟩
      · exact ⟨res_single h, h⟩

theorem step_inv (cfg : Config) (s : CState) (e : Ev) (h : CInv s)
    (hfresh : ∀ ls : LState, ∀ mp : MPerm, e = Ev.settleRestart ls mp →
      ls = s.listeningState ∧ mp = s.micPermission) :
    (∀ s' ∈ (step cfg s e).trace, CInv s') ∧ CInv (step cfg s e).final := by
  cases e
  case micClick oc =>
    simp only [step]
    split
    · exact ⟨res_single h, h⟩
    · split
      · exact ⟨stopRes_trace_inv s h.1, stopRes_final_inv s h.1⟩
      · exact startListening_inv cfg oc s h
  case autoStart oc =>
    simp only [step]
    exact startListening_inv cfg oc s h
  case wakeResult matched =>
    simp only [step]
    split
    · split
      · have h' : CInv {s with retryCount := 0, wakeActive := false} :=
          ⟨(fun hw => by cases hw), fun hm => ⟨(h.2 hm).1, rfl, (h.2 hm).2.2⟩⟩
        exact ⟨res_single h', h'⟩
      · have h' : CInv {s with retryCount := 0} := ⟨h.1, h.2⟩
        exact ⟨res_single h', h'⟩
    · exact ⟨res_single h, h⟩
  case wakeError k =>
    simp only [step]
    split
    · have h' : CInv {s with retryCount := s.retryCount + 1} := ⟨h.1, h.2⟩
      exact ⟨res_single h', h'⟩
    · exact ⟨res_single h, h⟩
  case wakeEnd =>
    simp only [step]
    split
    · rename_i hr
      have hm : s.mediaStream = false := by
        cases hms : s.mediaStream
        · rfl
        · exact absurd (h.2 hms).1 (by rw [hr]; simp)
      have h1 : CInv {s with wakeActive := false} :=
        cinv_of_media_false hm (fun hw => by cases hw)
      have h2 : CInv {s with wakeActive := true} :=
        cinv_of_media_false hm (fun _ => hr)
      refine ⟨?_, h2⟩
      intro s' hs'
      simp only [List.mem_cons, List.not_mem_nil, or_false] at hs'
      rcases hs' with rfl | rfl
      · exact h1
      · exact h2
    · have h' : CInv {s with wakeActive := false} :=
        ⟨(fun hw => by cases hw), fun hm => ⟨(h.2 hm).1, rfl, (h.2 hm).2.2⟩⟩
      exact ⟨res_single h', h'⟩
  case settleRestart ls mp =>
    obtain ⟨hls, hmp⟩ := hfresh ls mp rfl
    subst hls
    subst hmp
    simp only [step]
    split
    · exact ⟨res_single (startWake_inv cfg s h), startWake_inv cfg s h⟩
    · exact ⟨res_single h, h⟩
  case effectSync =>
    simp only [step]
    split
    · have h0 : CInv {s with retryCount := 0} := ⟨h.1, h.2⟩
      exact ⟨res_single (startWake_inv cfg _ h0), startWake_inv cfg _ h0⟩
    · have h' : CInv (stopWakeS s) :=
        cinv_of_flags (stopWakeS_wakeReg s) (stopWakeS_wakeActive s h)
          (fun hm => by
            rw [stopWakeS_mediaStream] at hm
            rw [stopWakeS_listeningState]
            exact (h.2 hm).2.2)
      exact ⟨res_single h', h'⟩
  case sessionOpen =>
    simp only [step]
    split
    · have h1 :
          CInv {s with connTimeout := false, listeningState := LState.listening,
                       connectPending := false} :=
        ⟨h.1, fun hm => ⟨(h.2 hm).1, (h.2 hm).2.1, by simp [activeS]⟩⟩
      split
      · have h2 :
            CInv {s with connTimeout := false, listeningState := LState.listening,
                         connectPending := false, analyser := true,
                         scriptProcessor := true, animFrame := true} :=
          ⟨h1.1, fun hm => h1.2 hm⟩
        refine ⟨?_, h2⟩
        intro s' hs'
        simp only [List.mem_cons, List.not_mem_nil, or_false] at hs'
        rcases hs' with rfl | rfl
        · exact h1
        · exact h2
      · exact ⟨res_single h1, h1⟩
    · exact ⟨res_single h, h⟩
  case sessionClose =>
    simp only [step]
    split
    · exact ⟨stopRes_trace_inv s h.1, stopRes_final_inv s h.1⟩
    · exact ⟨res_single h, h⟩
  case sessionError =>
    simp only [step]
    exact ⟨stopRes_trace_inv {s with listeningState := LState.error} h.1,
      stopRes_final_inv {s with listeningState := LState.error} h.1⟩
  case timeoutFire =>
    simp only [step]
    split
    · exact ⟨stopRes_trace_inv s h.1, stopRes_final_inv s h.1⟩
    · exact ⟨res_single h, h⟩
  case transcriptChunk t =>
    simp only [step]
    have h' :
        CInv {s with transcript := s.transcript ++ t,
                     inputValue := s.transcript ++ t} := ⟨h.1, h.2⟩
    exact ⟨res_single h', h'⟩
  case turnComplete =>
    simp only [step]
    exact turnComplete_inv s h
  case permChange ext =>
    simp only [step]
    have h' : CInv (permChangeHandler ext s) := by
      unfold permChangeHandler
      split
      · exact ⟨h.1, h.2⟩
      · exact h
    exact ⟨res_single h', h'⟩
  case sendClick =>
    simp only [step]
    split
    · exact ⟨res_single h, h⟩
    · split
      · have h' : CInv {s with inputValue := ""} := ⟨h.1, h.2⟩
        exact ⟨res_single h', h'⟩
      · exact ⟨stopRes_trace_inv {s with inputValue := ""} h.1,
          stopRes_final_inv {s with inputValue := ""} h.1⟩

theorem runAll_inv (cfg : Config) (evs : List Ev)
    (hns : ∀ ls : LState, ∀ mp : MPerm, Ev.settleRestart ls mp ∉ evs) :
    ∀ s : CState, CInv s → ∀ s' ∈ runAll cfg s evs, CInv s' := by
  induction evs with
  | nil =>
      intro s h s' hs'
      simp only [runAll, List.mem_singleton] at hs'
      subst hs'
      exact h
  | cons e es ih =>
      intro s h s' hs'
      have hfresh : ∀ ls : LState, ∀ mp : MPerm, e = Ev.settleRestart ls mp →
          ls = s.listeningState ∧ mp = s.micPermission := by
        intro ls mp he
        exact absurd (by rw [← he]; exact List.mem_cons_self _ _) (hns ls mp)
      have hns' : ∀ ls : LState, ∀ mp : MPerm, Ev.settleRestart ls mp ∉ es :=
        fun ls mp hx => hns ls mp (List.mem_cons_of_mem _ hx)
      simp only [runAll, List.mem_cons, List.mem_append] at hs'
      rcases hs' with rfl | hs' | hs'
      · exact h
      · exact (step_inv cfg s e h hfresh).1 s' hs'
      · exact ih hns' (step cfg s e).final (step_inv cfg s e h hfresh).2 s' hs'

/-! ## Only `onopen` enters the `listening` state -/

theorem stopRes_states_idle (s : CState) :
    (∀ s' ∈ (stopRes s).trace, s'.listeningState = LState.idle) ∧
      (stopRes s).final.listeningState = LState.idle := by
  constructor
  · intro s' hs'
    simp only [stopRes, stopFinal, List.mem_cons, List.not_mem_nil, or_false] at hs'
    rcases hs' with rfl | rfl | rfl <;> rfl
  · rfl

theorem startListening_no_listening (cfg : Config) (oc : MicOutcome) (s : CState)
    (hs : s.listeningState ≠ LState.listening) :
    (∀ s' ∈ (startListening cfg oc s).trace, s'.listeningState ≠ LState.listening) ∧
      (startListening cfg oc s).final.listeningState ≠ LState.listening := by
  unfold startListening
  split
  · split
    · cases oc
      case granted =>
        refine ⟨?_, by intro hx; cases hx⟩
        intro s' hs'
        simp only [List.mem_cons, List.not_mem_nil, or_false] at hs'
        rcases hs' with rfl | rfl | rfl | rfl | rfl
        · rw [stopWakeS_listeningState]; exact hs
        all_goals intro hx; cases hx
      case deniedPerm =>
        refine ⟨?_, by rw [(stopRes_states_idle _).2]; intro hx; cases hx⟩
        intro s' hs'
        simp only [List.cons_append, List.nil_append, List.mem_cons] at hs'
        rcases hs' with rfl | rfl | rfl | hs'
        · rw [stopWakeS_listeningState]; exact hs
        · intro hx; cases hx
        · intro hx; cases hx
        · rw [(stopRes_states_idle _).1 s' hs']; intro hx; cases hx
      case otherFail =>
        refine ⟨?_, by rw [(stopRes_states_idle _).2]; intro hx; cases hx⟩
        intro s' hs'
        simp only [List.cons_append, List.nil_append, List.mem_cons] at hs'
        rcases hs' with rfl | rfl | rfl | hs'
        · rw [stopWakeS_listeningState]; exact hs
        · intro hx; cases hx
        · intro hx; cases hx
        · rw [(stopRes_states_idle _).1 s' hs']; intro hx; cases hx
    · refine ⟨?_, by intro hx; cases hx⟩
      intro s' hs'
      simp only [List.mem_singleton] at hs'
      subst hs'
      intro hx; cases hx
  · refine ⟨?_, hs⟩
    intro s' hs'
    simp only [List.mem_singleton] at hs'
    subst hs'
    exact hs

theorem stopRes_no_listening (s : CState) :
    (∀ s' ∈ (stopRes s).trace, s'.listeningState ≠ LState.listening) ∧
      (stopRes s).final.listeningState ≠ LState.listening := by
  refine ⟨?_, by rw [(stopRes_states_idle s).2]; intro hx; cases hx⟩
  intro s' hs'
  rw [(stopRes_states_idle s).1 s' hs']
  intro hx; cases hx

theorem single_no_listening {t : CState} (ht : t.listeningState ≠ LState.listening) :
    ∀ s' ∈ [t], s'.listeningState ≠ LState.listening := by
  intro s' hs'
  simp only [List.mem_singleton] at hs'
  subst hs'
  exact ht

theorem step_no_listening (cfg : Config) (s : CState) (e : Ev)
    (he : e ≠ Ev.sessionOpen) (hs : s.listeningState ≠ LState.listening) :
    (∀ s' ∈ (step cfg s e).trace, s'.listeningState ≠ LState.listening) ∧
      (step cfg s e).final.listeningState ≠ LState.listening := by
  cases e
  case micClick oc =>
    simp only [step]
    split
    · exact ⟨single_no_listening hs, hs⟩
    · split
      · exact stopRes_no_listening s
      · exact startListening_no_listening cfg oc s hs
  case autoStart oc =>
    simp only [step]
    exact startListening_no_listening cfg oc s hs
  case wakeResult matched =>
    simp only [step]
    split
    · split
      · exact ⟨single_no_listening hs, hs⟩
      · exact ⟨single_no_listening hs, hs⟩
    · exact ⟨single_no_listening hs, hs⟩
  case wakeError k =>
    simp only [step]
    split
    · exact ⟨single_no_listening hs, hs⟩
    · exact ⟨single_no_listening hs, hs⟩
  case wakeEnd =>
    simp only [step]
    split
    · refine ⟨?_, hs⟩
      intro s' hs'
      simp only [List.mem_cons, List.not_mem_nil, or_false] at hs'
      rcases hs' with rfl | rfl <;> exact hs
    · exact ⟨single_no_listening hs, hs⟩
  case settleRestart ls mp =>
    simp only [step]
    split
    · have hw : (startWakeWordListenerAt cfg ls mp s).listeningState
          ≠ LState.listening := by
        unfold startWakeWordListenerAt
        split
        · exact hs
        · exact hs
      exact ⟨single_no_listening hw, hw⟩
    · exact ⟨single_no_listening hs, hs⟩
  case effectSync =>
    simp only [step]
    split
    · have hw : (startWakeWordListener cfg {s with retryCount := 0}).listeningState
          ≠ LState.listening := by
        unfold startWakeWordListener startWakeWordListenerAt
        split
        · exact hs
        · exact hs
      exact ⟨single_no_listening hw, hw⟩
    · have hw : (stopWakeS s).listeningState ≠ LState.listening := by
        rw [stopWakeS_listeningState]; exact hs
      exact ⟨single_no_listening hw, hw⟩
  case sessionOpen => exact absurd rfl he
  case sessionClose =>
    simp only [step]
    split
    · exact stopRes_no_listening s
    · exact ⟨single_no_listening hs, hs⟩
  case sessionError =>
    simp only [step]
    exact stopRes_no_listening {s with listeningState := LState.error}
  case timeoutFire =>
    simp only [step]
    split
    · exact stopRes_no_listening s
    · exact ⟨single_no_listening hs, hs⟩
  case transcriptChunk t =>
    simp only [step]
    exact ⟨single_no_listening hs, hs⟩
  case turnComplete =>
    simp only [step]
    simp only [turnCompleteEv]
    split
    · exact stopRes_no_listening _
    · split
      · exact stopRes_no_listening _
      · split
        · exact ⟨single_no_listening hs, hs⟩
        · exact ⟨single_no_listening hs, hs⟩
  case permChange ext =>
    simp only [step]
    have hw : (permChangeHandler ext s).listeningState ≠ LState.listening := by
      unfold permChangeHandler
      split
      · exact hs
      · exact hs
    exact ⟨single_no_listening hw, hw⟩
  case sendClick =>
    simp only [step]
    split
    · exact ⟨single_no_listening hs, hs⟩
    · split
      · exact ⟨single_no_listening hs, hs⟩
      · exact stopRes_no_listening _

theorem runAll_no_listening (cfg : Config) (evs : List Ev)
    (hno : Ev.sessionOpen ∉ evs) :
    ∀ s : CState, s.listeningState ≠ LState.listening →
      ∀ s' ∈ runAll cfg s evs, s'.listeningState ≠ LState.listening := by
  induction evs with
  | nil =>
      intro s hs s' hs'
      simp only [runAll, List.mem_singleton] at hs'
      subst hs'
      exact hs
  | cons e es ih =>
      intro s hs s' hs'
      have he : e ≠ Ev.sessionOpen := fun hx => hno (by rw [hx]; exact List.mem_cons_self _ _)
      have hes : Ev.sessionOpen ∉ es := fun hx => hno (List.mem_cons_of_mem _ hx)
      simp only [runAll, List.mem_cons, List.mem_append] at hs'
      rcases hs' with rfl | hs' | hs'
      · exact hs
      · exact (step_no_listening cfg s e he hs).1 s' hs'
      · exact ih hes (step cfg s e).final (step_no_listening cfg s e he hs).2 s' hs'

/-! ## PCM range lemmas -/

theorem clip_mem (x : ℚ) : -1 ≤ clip x ∧ clip x ≤ 1 := by
  unfold clip
  exact ⟨le_max_left _ _, max_le (by norm_num) (min_le_left _ _)⟩

theorem rat_num_le_of_le {q : ℚ} {b : ℕ} (h : q ≤ (b : ℚ)) :
    (q.num : ℚ) ≤ (b : ℚ) * (q.den : ℚ) := by
  rw [← Rat.mul_den_eq_num q]
  have hd : (0 : ℚ) ≤ (q.den : ℚ) := by positivity
  exact mul_le_mul_of_nonneg_right h hd

theorem jsTrunc_nonneg_le {q : ℚ} {b : ℕ} (h0 : 0 ≤ q) (hb : q ≤ (b : ℚ)) :
    0 ≤ jsTrunc q ∧ jsTrunc q ≤ (b : ℤ) := by
  have hn : 0 ≤ q.num := Rat.num_nonneg.mpr h0
  have hq : jsTrunc q = ((q.num.toNat / q.den : ℕ) : ℤ) := by
    unfold jsTrunc
    rw [if_pos hn]
  refine ⟨by rw [hq]; exact Int.natCast_nonneg _, ?_⟩
  rw [hq]
  have h1 : (q.num : ℚ) ≤ (b : ℚ) * (q.den : ℚ) := rat_num_le_of_le hb
  have h2 : q.num ≤ (b : ℤ) * (q.den : ℤ) := by exact_mod_cast h1
  have h3 : q.num.toNat ≤ b * q.den := by
    rw [Int.toNat_le]
    exact_mod_cast h2
  have h4 : q.num.toNat / q.den ≤ b * q.den / q.den := Nat.div_le_div_right h3
  rw [Nat.mul_div_cancel b q.pos] at h4
  exact_mod_cast h4

theorem jsTrunc_neg_bounds {q : ℚ} {b : ℕ} (hlo : -(b : ℚ) ≤ q) (hneg : q < 0) :
    -(b : ℤ) ≤ jsTrunc q ∧ jsTrunc q ≤ 0 := by
  have hn : ¬ 0 ≤ q.num := fun hx =>
    absurd (Rat.num_nonneg.mp hx) (not_le.mpr hneg)
  have hq : jsTrunc q = -(((-q.num).toNat / q.den : ℕ) : ℤ) := by
    unfold jsTrunc
    rw [if_neg hn]
  refine ⟨?_, by rw [hq]; exact neg_nonpos.mpr (Int.natCast_nonneg _)⟩
  rw [hq, neg_le_neg_iff]
  have hnq : -q ≤ (b : ℚ) := by linarith
  have h1 : ((-q).num : ℚ) ≤ (b : ℚ) * ((-q).den : ℚ) := rat_num_le_of_le hnq
  have h2 : (-q).num ≤ (b : ℤ) * ((-q).den : ℤ) := by exact_mod_cast h1
  have h3 : (-q.num).toNat ≤ b * q.den := by
    rw [Int.toNat_le]
    rw [Rat.neg_num, Rat.neg_den] at h2
    exact_mod_cast h2
  have h4 : (-q.num).toNat / q.den ≤ b * q.den / q.den := Nat.div_le_div_right h3
  rw [Nat.mul_div_cancel b q.pos] at h4
  exact_mod_cast h4

theorem toInt16_id {n : ℤ} (hlo : -32768 ≤ n) (hhi : n ≤ 32767) : toInt16 n = n := by
  unfold toInt16
  have h1 : 0 ≤ n + 32768 := by omega
  have h2 : n + 32768 < 65536 := by omega
  rw [Int.emod_eq_of_lt h1 h2]
  omega

theorem pcm16_bounds (x : ℚ) : -32768 ≤ pcm16 x ∧ pcm16 x ≤ 32767 := by
  obtain ⟨hlo, hhi⟩ := clip_mem x
  unfold pcm16
  split
  · rename_i hneg
    have hvlo : -((32768 : ℕ) : ℚ) ≤ clip x * 32768 := by
      push_cast
      nlinarith
    have hvneg : clip x * 32768 < 0 := by nlinarith
    obtain ⟨h1, h2⟩ := jsTrunc_neg_bounds hvlo hvneg
    rw [toInt16_id (by exact_mod_cast h1) (by omega)]
    constructor
    · exact_mod_cast h1
    · omega
  · rename_i hpos
    push_neg at hpos
    have hv0 : 0 ≤ clip x * 32767 := by nlinarith
    have hvhi : clip x * 32767 ≤ ((32767 : ℕ) : ℚ) := by
      push_cast
      nlinarith
    obtain ⟨h1, h2⟩ := jsTrunc_nonneg_le hv0 hvhi
    rw [toInt16_id (by omega) (by exact_mod_cast h2)]
    constructor
    · omega
    · exact_mod_cast h2

/-! ## Permission-update tracking -/

theorem stopWakeS_micPermission (s : CState) :
    (stopWakeS s).micPermission = s.micPermission := by
  unfold stopWakeS; split <;> rfl

theorem stopRes_perm (b : CState) :
    (∀ s' ∈ (stopRes b).trace, s'.micPermission = b.micPermission) ∧
      (stopRes b).final.micPermission = b.micPermission := by
  constructor
  · intro s' hs'
    simp only [stopRes, stopFinal, List.mem_cons, List.not_mem_nil, or_false] at hs'
    rcases hs' with rfl | rfl | rfl <;> rfl
  · rfl

theorem startListening_perm (cfg : Config) (oc : MicOutcome) (s : CState) :
    (∀ s' ∈ (startListening cfg oc s).trace,
        s'.micPermission = s.micPermission ∨ s'.micPermission = MPerm.granted ∨
          oc = MicOutcome.deniedPerm) ∧
      ((startListening cfg oc s).final.micPermission = s.micPermission ∨
        (startListening cfg oc s).final.micPermission = MPerm.granted ∨
        oc = MicOutcome.deniedPerm) := by
  unfold startListening
  split
  · split
    · cases oc
      case granted =>
        constructor
        · intro s' hs'
          simp only [List.mem_cons, List.not_mem_nil, or_false] at hs'
          rcases hs' with rfl | rfl | rfl | rfl | rfl
          · exact Or.inl (stopWakeS_micPermission s)
          · exact Or.inl (stopWakeS_micPermission s)
          · exact Or.inr (Or.inl rfl)
          · exact Or.inr (Or.inl rfl)
          · exact Or.inr (Or.inl rfl)
        · exact Or.inr (Or.inl rfl)
      case deniedPerm => exact ⟨fun s' _ => Or.inr (Or.inr rfl), Or.inr (Or.inr rfl)⟩
      case otherFail =>
        constructor
        · intro s' hs'
          simp only [List.cons_append, List.nil_append, List.mem_cons] at hs'
          rcases hs' with rfl | rfl | rfl | hs'
          · exact Or.inl (stopWakeS_micPermission s)
          · exact Or.inl (stopWakeS_micPermission s)
          · exact Or.inl (stopWakeS_micPermission s)
          · refine Or.inl ?_
            rw [(stopRes_perm _).1 s' hs']
            exact stopWakeS_micPermission s
        · refine Or.inl ?_
          rw [(stopRes_perm _).2]
          exact stopWakeS_micPermission s
    · constructor
      · intro s' hs'
        simp only [List.mem_singleton] at hs'
        subst hs'
        exact Or.inl rfl
      · exact Or.inl rfl
  · constructor
    · intro s' hs'
      simp only [List.mem_singleton] at hs'
      subst hs'
      exact Or.inl rfl
    · exact Or.inl rfl

theorem step_perm (cfg : Config) (s : CState) (e : Ev) :
    (∀ s' ∈ (step cfg s e).trace,
        s'.micPermission = s.micPermission ∨ s'.micPermission = MPerm.granted ∨
          e = Ev.micClick MicOutcome.deniedPerm ∨
          e = Ev.autoStart MicOutcome.deniedPerm) ∧
      ((step cfg s e).final.micPermission = s.micPermission ∨
        (step cfg s e).final.micPermission = MPerm.granted ∨
        e = Ev.micClick MicOutcome.deniedPerm ∨
        e = Ev.autoStart MicOutcome.deniedPerm) := by
  have single : ∀ t : CState, t.micPermission = s.micPermission →
      ∀ s' ∈ [t], s'.micPermission = s.micPermission ∨
        s'.micPermission = MPerm.granted ∨
        e = Ev.micClick MicOutcome.deniedPerm ∨
        e = Ev.autoStart MicOutcome.deniedPerm := by
    intro t ht s' hs'
    simp only [List.mem_singleton] at hs'
    subst hs'
    exact Or.inl ht
  have fromStop : ∀ b : CState, b.micPermission = s.micPermission →
      (∀ s' ∈ (stopRes b).trace, s'.micPermission = s.micPermission ∨
          s'.micPermission = MPerm.granted ∨
          e = Ev.micClick MicOutcome.deniedPerm ∨
          e = Ev.autoStart MicOutcome.deniedPerm) ∧
        ((stopRes b).final.micPermission = s.micPermission ∨
          (stopRes b).final.micPermission = MPerm.granted ∨
          e = Ev.micClick MicOutcome.deniedPerm ∨
          e = Ev.autoStart MicOutcome.deniedPerm) := by
    intro b hb
    constructor
    · intro s' hs'
      exact Or.inl (((stopRes_perm b).1 s' hs').trans hb)
    · exact Or.inl (((stopRes_perm b).2).trans hb)
  have fromStart : ∀ oc : MicOutcome,
      (e = Ev.micClick oc ∨ e = Ev.autoStart oc) →
      (∀ s' ∈ (startListening cfg oc s).trace,
          s'.micPermission = s.micPermission ∨ s'.micPermission = MPerm.granted ∨
          e = Ev.micClick MicOutcome.deniedPerm ∨
          e = Ev.autoStart MicOutcome.deniedPerm) ∧
        ((startListening cfg oc s).final.micPermission = s.micPermission ∨
          (startListening cfg oc s).final.micPermission = MPerm.granted ∨
          e = Ev.micClick MicOutcome.deniedPerm ∨
          e = Ev.autoStart MicOutcome.deniedPerm) := by
    intro oc he
    constructor
    · intro s' hs'
      rcases (startListening_perm cfg oc s).1 s' hs' with h | h | h
      · exact Or.inl h
      · exact Or.inr (Or.inl h)
      · rcases he with rfl | rfl
        · exact Or.inr (Or.inr (Or.inl (by rw [h])))
        · exact Or.inr (Or.inr (Or.inr (by rw [h])))
    · rcases (startListening_perm cfg oc s).2 with h | h | h
      · exact Or.inl h
      · exact Or.inr (Or.inl h)
      · rcases he with rfl | rfl
        · exact Or.inr (Or.inr (Or.inl (by rw [h])))
        · exact Or.inr (Or.inr (Or.inr (by rw [h])))
  cases e
  case micClick oc =>
    simp only [step]
    split
    · exact ⟨single s rfl, Or.inl rfl⟩
    · split
      · exact fromStop s rfl
      · exact fromStart oc (Or.inl rfl)
  case autoStart oc =>
    simp only [step]
    exact fromStart oc (Or.inr rfl)
  case wakeResult matched =>
    simp only [step]
    split
    · split
      · exact ⟨single _ rfl, Or.inl rfl⟩
      · exact ⟨single _ rfl, Or.inl rfl⟩
    · exact ⟨single s rfl, Or.inl rfl⟩
  case wakeError k =>
    simp only [step]
    split
    · exact ⟨single _ rfl, Or.inl rfl⟩
    · exact ⟨single s rfl, Or.inl rfl⟩
  case wakeEnd =>
    simp only [step]
    split
    · constructor
      · intro s' hs'
        simp only [List.mem_cons, List.not_mem_nil, or_false] at hs'
        rcases hs' with rfl | rfl <;> exact Or.inl rfl
      · exact Or.inl rfl
    · exact ⟨single _ rfl, Or.inl rfl⟩
  case settleRestart ls mp =>
    simp only [step]
    have hperm : (startWakeWordListenerAt cfg ls mp s).micPermission
        = s.micPermission := by
      unfold startWakeWordListenerAt; split <;> rfl
    split
    · exact ⟨single _ hperm, Or.inl hperm⟩
    · exact ⟨single s rfl, Or.inl rfl⟩
  case effectSync =>
    simp only [step]
    have hperm : (startWakeWordListener cfg {s with retryCount := 0}).micPermission
        = s.micPermission := by
      unfold startWakeWordListener startWakeWordListenerAt; split <;> rfl
    split
    · exact ⟨single _ hperm, Or.inl hperm⟩
    · exact ⟨single _ (stopWakeS_micPermission s), Or.inl (stopWakeS_micPermission s)⟩
  case sessionOpen =>
    simp only [step]
    split
    · split
      · constructor
        · intro s' hs'
          simp only [List.mem_cons, List.not_mem_nil, or_false] at hs'
          rcases hs' with rfl | rfl <;> exact Or.inl rfl
        · exact Or.inl rfl
      · exact ⟨single _ rfl, Or.inl rfl⟩
    · exact ⟨single s rfl, Or.inl rfl⟩
  case sessionClose =>
    simp only [step]
    split
    · exact fromStop s rfl
    · exact ⟨single s rfl, Or.inl rfl⟩
  case sessionError =>
    simp only [step]
    exact fromStop {s with listeningState := LState.error} rfl
  case timeoutFire =>
    simp only [step]
    split
    · exact fromStop s rfl
    · exact ⟨single s rfl, Or.inl rfl⟩
  case transcriptChunk t =>
    simp only [step]
    refine ⟨single _ rfl, ?_⟩
    exact Or.inl trivial
  case turnComplete =>
    simp only [step, turnCompleteEv]
    split
    · exact fromStop _ rfl
    · split
      · exact fromStop _ rfl
      · split
        · exact ⟨single _ rfl, Or.inl rfl⟩
        · exact ⟨single s rfl, Or.inl rfl⟩
  case permChange ext =>
    simp only [step]
    have hp : (permChangeHandler ext s).micPermission = s.micPermission ∨
        (permChangeHandler ext s).micPermission = MPerm.granted := by
      unfold permChangeHandler
      split
      · exact Or.inr rfl
      · exact Or.inl rfl
    constructor
    · intro s' hs'
      simp only [List.mem_singleton] at hs'
      subst hs'
      rcases hp with h | h
      · exact Or.inl h
      · exact Or.inr (Or.inl h)
    · rcases hp with h | h
      · exact Or.inl h
      · exact Or.inr (Or.inl h)
  case sendClick =>
    simp only [step]
    split
    · exact ⟨single s rfl, Or.inl rfl⟩
    · split
      · exact ⟨single _ rfl, Or.inl rfl⟩
      · exact fromStop _ rfl

/-! ## Claim theorems -/

/-- Claim C6: PCM encoding clamps before scaling.  Every encoded sample lies
in [-32768, 32767]; an input of 1.0 encodes to the maximum positive value
32767 (no overflow or wrap to negative); an input of -1.5 is clamped to -1
and encodes to the maximum-magnitude negative value -32768. -/
theorem C6_pcm_encoding :
    (∀ x : ℚ, -32768 ≤ pcm16 x ∧ pcm16 x ≤ 32767) ∧
      pcm16 1 = 32767 ∧ clip (-(3/2)) = -1 ∧ pcm16 (-(3/2)) = -32768 := by
  refine ⟨pcm16_bounds, ?_, ?_, ?_⟩
  · have h1 : clip 1 = 1 := by norm_num [clip]
    rw [pcm16, h1]
    norm_num [jsTrunc, toInt16]
  · rw [clip, min_eq_right (by norm_num), max_eq_left (by norm_num)]
  · have h1 : clip (-(3/2)) = -1 := by
      rw [clip, min_eq_right (by norm_num), max_eq_left (by norm_num)]
    rw [pcm16, h1]
    norm_num [jsTrunc, toInt16]

/-- Claim C7: wake-word restart backoff.  The computed delay is the 300 ms
fast-path minimum at retry count 0 and `min (500 * 2 ^ r) 30000` for
r > 0; the delays at retry counts 0, 1, 2, 3 are non-decreasing; every
delay is at most the 30000 ms cap. -/
theorem C7_backoff_delay :
    backoffDelay 0 = 300 ∧
      (∀ r : Nat, backoffDelay (r + 1) = min (500 * 2 ^ (r + 1)) 30000) ∧
      backoffDelay 0 ≤ backoffDelay 1 ∧ backoffDelay 1 ≤ backoffDelay 2 ∧
      backoffDelay 2 ≤ backoffDelay 3 ∧
      (∀ r : Nat, backoffDelay r ≤ 30000) := by
  refine ⟨rfl, fun r => by simp [backoffDelay], by decide, by decide, by decide,
    fun r => ?_⟩
  unfold backoffDelay
  split
  · omega
  · exact min_le_right _ _

/-- Claim C2: full stop is idempotent.  For every resource state, a second
`stopListening` yields the same end state as the first — idle, audio level
zero, transcript empty, every handle ref null — and the second run performs
no release effect at all (hence no double release; the embedding is a total
function, matching the code's catch-all handling which never lets the
second run throw). -/
theorem C2_full_stop_idempotent :
    ∀ s : CState,
      stopFinal (stopFinal s) = stopFinal s ∧
      (stopRes s).final = stopFinal s ∧
      (stopFinal s).listeningState = LState.idle ∧
      (stopFinal s).audioLevel = 0 ∧
      (stopFinal s).transcript = "" ∧
      (stopFinal s).mediaStream = false ∧
      (stopFinal s).scriptProcessor = false ∧
      (stopFinal s).analyser = false ∧
      (stopFinal s).audioCtx = false ∧
      (stopFinal s).sessionP = false ∧
      (stopFinal s).connTimeout = false ∧
      (stopFinal s).animFrame = false ∧
      (stopRes (stopFinal s)).out = [] := by
  intro s
  refine ⟨rfl, rfl, rfl, rfl, rfl, rfl, rfl, rfl, rfl, rfl, rfl, rfl, ?_⟩
  simp [stopRes, stopOut, stopFinal]

/-- Claim C9: implicit API-key guard.  With a missing/invalid API key,
`startListening` from an idle or error state moves the controller to the
error state, reports exactly one error message, requests no microphone,
does not stop the wake-word listener, and changes nothing else. -/
theorem C9_api_key_guard (cfg : Config) (oc : MicOutcome) (s : CState)
    (hkey : cfg.apiKeyOk = false)
    (hst : s.listeningState = LState.idle ∨ s.listeningState = LState.error) :
    startListening cfg oc s =
      { final := {s with listeningState := LState.error},
        trace := [{s with listeningState := LState.error}],
        out := [Output.errApiKey] } := by
  unfold startListening
  rw [if_pos hst, if_neg (by rw [hkey]; exact Bool.false_ne_true)]

/-- Witness for C9 at a concrete input. -/
theorem C9_api_key_guard_witness :
    startListening { apiKeyOk := false, speechApiOk := true } MicOutcome.granted
        initState =
      { final := {initState with listeningState := LState.error},
        trace := [{initState with listeningState := LState.error}],
        out := [Output.errApiKey] } :=
  C9_api_key_guard { apiKeyOk := false, speechApiOk := true } MicOutcome.granted
    initState rfl (Or.inl rfl)

theorem sentTexts_append (a b : List Output) :
    sentTexts (a ++ b) = sentTexts a ++ sentTexts b := by
  simp [sentTexts, List.filterMap_append]

theorem sentTexts_stopOut (s : CState) : sentTexts (stopOut s) = [] := by
  unfold stopOut
  split_ifs <;> rfl

theorem stopRes_wake (b : CState) :
    ∀ s' ∈ (stopRes b).trace,
      s'.wakeReg = b.wakeReg ∧ s'.wakeActive = b.wakeActive := by
  intro s' hs'
  simp only [stopRes, stopFinal, List.mem_cons, List.not_mem_nil, or_false] at hs'
  rcases hs' with rfl | rfl | rfl <;> exact ⟨rfl, rfl⟩

/-- Claim C4: permission-denied path.  A denied microphone request during
`startListening` passes through the error state with `micPermission` set to
denied (which persists through the ensuing full stop), and while permission
is denied every mic-button click is a complete no-op — no state change, no
effect, in particular no new microphone request — until the permission
changes externally. -/
theorem C4_permission_denied (cfg : Config) (s : CState)
    (hkey : cfg.apiKeyOk = true)
    (hst : s.listeningState = LState.idle ∨ s.listeningState = LState.error) :
    (∃ s' ∈ (startListening cfg MicOutcome.deniedPerm s).trace,
        s'.listeningState = LState.error ∧ s'.micPermission = MPerm.denied) ∧
      (startListening cfg MicOutcome.deniedPerm s).final.micPermission
        = MPerm.denied ∧
      (∀ oc : MicOutcome, ∀ s2 : CState, s2.micPermission = MPerm.denied →
        step cfg s2 (Ev.micClick oc) = { final := s2, trace := [s2], out := [] }) := by
  refine ⟨?_, ?_, ?_⟩
  · unfold startListening
    rw [if_pos hst, if_pos hkey]
    refine ⟨{stopWakeS s with listeningState := LState.error, micPermission := MPerm.denied}, ?_, rfl, rfl⟩
    exact List.mem_append_left _
      (List.mem_cons_of_mem _ (List.mem_cons_of_mem _ (List.mem_cons_self _ _)))
  · unfold startListening
    rw [if_pos hst, if_pos hkey]
    rfl
  · intro oc s2 h2
    simp only [step]
    rw [if_pos h2]

/-- Witness for C4 at a concrete input. -/
theorem C4_permission_denied_witness :
    (∃ s' ∈ (startListening cfg0 MicOutcome.deniedPerm initState).trace,
        s'.listeningState = LState.error ∧ s'.micPermission = MPerm.denied) ∧
      (startListening cfg0 MicOutcome.deniedPerm initState).final.micPermission
        = MPerm.denied ∧
      (∀ oc : MicOutcome, ∀ s2 : CState, s2.micPermission = MPerm.denied →
        step cfg0 s2 (Ev.micClick oc) = { final := s2, trace := [s2], out := [] }) :=
  C4_permission_denied cfg0 initState rfl (Or.inl rfl)

/-- Claim C10: one-way permission updates from the collaborator.  The
permission-query handler changes `micPermission` only to granted and only
when the external state is granted; across every controller event, a state
with `micPermission = denied` arises only from a state already denied or
from a start event whose microphone request failed with a permission
error. -/
theorem C10_permission_one_way :
    (∀ ext : MPerm, ∀ s : CState,
        (permChangeHandler ext s).micPermission ≠ s.micPermission →
          ext = MPerm.granted ∧
            (permChangeHandler ext s).micPermission = MPerm.granted) ∧
      (∀ cfg : Config, ∀ s : CState, ∀ e : Ev,
        (∀ s' ∈ (step cfg s e).trace, s'.micPermission = MPerm.denied →
            s.micPermission = MPerm.denied ∨
              e = Ev.micClick MicOutcome.deniedPerm ∨
              e = Ev.autoStart MicOutcome.deniedPerm) ∧
          ((step cfg s e).final.micPermission = MPerm.denied →
            s.micPermission = MPerm.denied ∨
              e = Ev.micClick MicOutcome.deniedPerm ∨
              e = Ev.autoStart MicOutcome.deniedPerm)) := by
  constructor
  · intro ext s hne
    unfold permChangeHandler at hne ⊢
    by_cases hx : ext = MPerm.granted
    · rw [if_pos hx]
      exact ⟨hx, rfl⟩
    · rw [if_neg hx] at hne
      exact absurd rfl hne
  · intro cfg s e
    constructor
    · intro s' hs' hd
      rcases (step_perm cfg s e).1 s' hs' with h | h | h | h
      · exact Or.inl (h.symm.trans hd)
      · exact absurd (h.symm.trans hd) (by decide)
      · exact Or.inr (Or.inl h)
      · exact Or.inr (Or.inr h)
    · intro hd
      rcases (step_perm cfg s e).2 with h | h | h | h
      · exact Or.inl (h.symm.trans hd)
      · exact absurd (h.symm.trans hd) (by decide)
      · exact Or.inr (Or.inl h)
      · exact Or.inr (Or.inr h)

/-- Witness for C10 at a concrete input. -/
theorem C10_permission_one_way_witness :
    MPerm.granted = MPerm.granted ∧
      (permChangeHandler MPerm.granted initState).micPermission = MPerm.granted :=
  C10_permission_one_way.1 MPerm.granted initState (by decide)

theorem stopRes_out (b : CState) : (stopRes b).out = stopOut b := rfl

/-- Claim C3: send-command parsing.  Whenever the trimmed accumulated
transcript matches the trailing send pattern, the turn-complete handler
strips the trailing phrase and punctuation, trims, hands the remainder to
`onSend` exactly when it is non-empty, clears the live input and the
transcript, and performs the full stop; in particular the transcript
"Please email the client send" finalizes "Please email the client" and
ends idle. -/
theorem C3_send_command :
    (∀ s : CState, cmdMatch sendPhrases (jsTrim s.transcript) = true →
        (turnCompleteEv s).final = stopFinal {s with inputValue := ""} ∧
        (turnCompleteEv s).final.listeningState = LState.idle ∧
        (turnCompleteEv s).final.inputValue = "" ∧
        (turnCompleteEv s).final.transcript = "" ∧
        (turnCompleteEv s).out =
          (if jsTrim (stripCmd sendPhrases (jsTrim s.transcript)) = "" then []
            else [Output.sent (jsTrim (stripCmd sendPhrases (jsTrim s.transcript)))]) ++
            stopOut {s with inputValue := ""} ∧
        sentTexts (turnCompleteEv s).out =
          (if jsTrim (stripCmd sendPhrases (jsTrim s.transcript)) = "" then []
            else [jsTrim (stripCmd sendPhrases (jsTrim s.transcript))])) ∧
      sentTexts (turnCompleteEv
          {initState with transcript := "Please email the client send",
                          listeningState := LState.listening}).out
        = ["Please email the client"] ∧
      (turnCompleteEv
          {initState with transcript := "Please email the client send",
                          listeningState := LState.listening}).final.listeningState
        = LState.idle := by
  refine ⟨?_, by decide, by decide⟩
  intro s h
  simp only [turnCompleteEv]
  rw [if_pos h]
  refine ⟨rfl, rfl, rfl, rfl, rfl, ?_⟩
  rw [sentTexts_append, stopRes_out, sentTexts_stopOut, List.append_nil]
  by_cases he : jsTrim (stripCmd sendPhrases (jsTrim s.transcript)) = ""
  · rw [if_pos he, if_pos he]
    rfl
  · rw [if_neg he, if_neg he]
    rfl

/-- Witness for C3 at a concrete input. -/
theorem C3_send_command_witness :
    (turnCompleteEv {initState with transcript := "Please email the client send", listeningState := LState.listening}).final =
      stopFinal {initState with transcript := "Please email the client send", listeningState := LState.listening, inputValue := ""} :=
  (C3_send_command.1
    {initState with transcript := "Please email the client send", listeningState := LState.listening}
    (by decide)).1

/-- Claim C8: clear-command parsing.  Whenever the trimmed accumulated
transcript matches the trailing clear pattern and neither the send nor the
stop pattern, the turn-complete handler clears the transcript buffer and
the live input, emits nothing, performs no stop, and leaves the controller
state unchanged; in particular "remind Sarah tomorrow clear input" clears
the buffer and stays listening. -/
theorem C8_clear_command :
    (∀ s : CState,
        cmdMatch clearPhrases (jsTrim s.transcript) = true →
        cmdMatch sendPhrases (jsTrim s.transcript) = false →
        cmdMatch stopPhrases (jsTrim s.transcript) = false →
        turnCompleteEv s =
          { final := {s with inputValue := "", transcript := ""},
            trace := [{s with inputValue := "", transcript := ""}], out := [] } ∧
        (turnCompleteEv s).final.listeningState = s.listeningState ∧
        sentTexts (turnCompleteEv s).out = []) ∧
      (turnCompleteEv
          {initState with transcript := "remind Sarah tomorrow clear input",
                          listeningState := LState.listening}).final.listeningState
        = LState.listening ∧
      (turnCompleteEv
          {initState with transcript := "remind Sarah tomorrow clear input",
                          listeningState := LState.listening}).final.transcript
        = "" ∧
      (turnCompleteEv
          {initState with transcript := "remind Sarah tomorrow clear input",
                          listeningState := LState.listening}).final.inputValue
        = "" ∧
      (turnCompleteEv
          {initState with transcript := "remind Sarah tomorrow clear input",
                          listeningState := LState.listening}).out = [] := by
  refine ⟨?_, by decide, by decide, by decide, by decide⟩
  intro s h1 h2 h3
  simp only [turnCompleteEv]
  rw [if_neg (by rw [h2]; exact Bool.false_ne_true),
    if_neg (by rw [h3]; exact Bool.false_ne_true), if_pos h1]
  exact ⟨rfl, rfl, rfl⟩

/-- Witness for C8 at a concrete input. -/
theorem C8_clear_command_witness :
    turnCompleteEv {initState with transcript := "remind Sarah tomorrow clear input", listeningState := LState.listening} =
      { final := {initState with listeningState := LState.listening, inputValue := "", transcript := ""},
        trace := [{initState with listeningState := LState.listening, inputValue := "", transcript := ""}],
        out := [] } :=
  (C8_clear_command.1
    {initState with transcript := "remind Sarah tomorrow clear input", listeningState := LState.listening}
    (by decide) (by decide) (by decide)).1

/-- Claim C1, settled as a code bug: the code violates the claimed mutual
exclusion.  The spec's invariant (and its section 5 rule of reading the
latest state through a live reference inside long-lived callbacks, which
the code follows at lines 123, 254 and 338) is the clear intent, but the
500 ms settle timer at the end of `stopListening` (lines 208-212) invokes
a `startWakeWordListener` captured at an earlier render — `stopListening`
is memoized on `[micPermission]` alone (line 214) — and that closure's
guard (line 364) reads render-captured `listeningState`/`micPermission`
rather than `listeningStateRef.current`.  With the common stale snapshot
idle/granted (captured when permission resolved at mount), the run
permission-granted, manual start, manual stop (timer scheduled), manual
re-start (stream re-acquired within the 500 ms), stale timer fires —
registers and starts a wake recognizer while the dictation stream holds
the microphone: both hold the microphone at once, in state `connecting`,
even though every state before the stale timer satisfied the exclusion. -/
theorem C1_stale_settle_restart_breaks_mutex :
    (∀ s' ∈ runAll cfg0 initState
        [Ev.permChange MPerm.granted, Ev.micClick MicOutcome.granted,
         Ev.micClick MicOutcome.granted, Ev.micClick MicOutcome.granted],
      ¬(s'.wakeActive = true ∧ s'.mediaStream = true)) ∧
      (let f := runFinal cfg0 initState
          [Ev.permChange MPerm.granted, Ev.micClick MicOutcome.granted,
           Ev.micClick MicOutcome.granted, Ev.micClick MicOutcome.granted,
           Ev.settleRestart LState.idle MPerm.granted]
       f.wakeReg = true ∧ f.wakeActive = true ∧ f.mediaStream = true ∧
         f.listeningState = LState.connecting) := by decide

/-- Counterexample to claim C5 as stated.  In the run
manual-start (granted), manual-stop (issued while still `connecting`,
before `onopen` fires), the controller does return to idle — yet if the
pending `onopen` callback of the un-cancelled connect attempt fires
afterwards (the code's `onopen`, line 270, sets the state to `listening`
unconditionally before checking the torn-down refs), the run reaches the
`listening` state after all. -/
theorem C5_counterexample :
    (∀ s' ∈ runAll cfg0 initState
        [Ev.micClick MicOutcome.granted, Ev.micClick MicOutcome.granted],
      s'.listeningState ≠ LState.listening) ∧
      (runFinal cfg0 initState
          [Ev.micClick MicOutcome.granted, Ev.micClick MicOutcome.granted]).listeningState
        = LState.idle ∧
      (∃ s' ∈ runAll cfg0 initState
          [Ev.micClick MicOutcome.granted, Ev.micClick MicOutcome.granted,
           Ev.sessionOpen],
        s'.listeningState = LState.listening) := by decide

/-- Claim C5 as amended: starting capture from the initial state and
issuing manual stop before `onopen` fires cancels the connect timeout,
releases the session handle and the stream, returns the controller to
idle, keeps the wake-word recognizer unregistered throughout, and the run
never reaches `listening` — provided the pending open callback never
fires; if it does fire, the state transiently becomes `listening`
(see the counterexample). -/
theorem C5_early_stop_round_trip (evs : List Ev) (hno : Ev.sessionOpen ∉ evs) :
    (∀ s' ∈ runAll cfg0 initState
        [Ev.micClick MicOutcome.granted, Ev.micClick MicOutcome.granted],
      s'.listeningState ≠ LState.listening ∧ s'.wakeReg = false) ∧
      (let f := runFinal cfg0 initState
          [Ev.micClick MicOutcome.granted, Ev.micClick MicOutcome.granted]
       f.listeningState = LState.idle ∧ f.sessionP = false ∧
         f.connTimeout = false ∧ f.mediaStream = false) ∧
      (∀ s' ∈ runAll cfg0
          (runFinal cfg0 initState
            [Ev.micClick MicOutcome.granted, Ev.micClick MicOutcome.granted]) evs,
        s'.listeningState ≠ LState.listening) := by
  refine ⟨by decide, by decide, ?_⟩
  exact runAll_no_listening cfg0 evs hno _ (by decide)

/-- Witness for the amended C5 at a concrete input. -/
theorem C5_early_stop_round_trip_witness :
    (∀ s' ∈ runAll cfg0 initState
        [Ev.micClick MicOutcome.granted, Ev.micClick MicOutcome.granted],
      s'.listeningState ≠ LState.listening ∧ s'.wakeReg = false) ∧
      (let f := runFinal cfg0 initState
          [Ev.micClick MicOutcome.granted, Ev.micClick MicOutcome.granted]
       f.listeningState = LState.idle ∧ f.sessionP = false ∧
         f.connTimeout = false ∧ f.mediaStream = false) ∧
      (∀ s' ∈ runAll cfg0
          (runFinal cfg0 initState
            [Ev.micClick MicOutcome.granted, Ev.micClick MicOutcome.granted])
          [Ev.settleRestart LState.idle MPerm.granted],
        s'.listeningState ≠ LState.listening) :=
  C5_early_stop_round_trip [Ev.settleRestart LState.idle MPerm.granted] (by simp)
